import Mathlib

/-!
Shallow embedding of `src/project.py` (a recipe / shopping-list manager).

Python `dict`s are modelled as association lists `List (String × α)` with
insertion-order semantics: updating an existing key keeps its position,
inserting a new key appends at the end, deleting a key removes its entry.
A Python `set` of ingredient names is modelled as a duplicate-free
`List String` — its elements in the (unspecified) order the set happens to
enumerate them — and the set algebra on ingredients goes through
`List.toFinset`; building a set from a list (`set(...)`) is `List.dedup`.
-/

namespace Proyecto

/-- `EstadoCompra` enum from project.py (PENDIENTE / COMPRADO). -/
inductive EstadoCompra where
  | PENDIENTE : EstadoCompra
  | COMPRADO : EstadoCompra
deriving DecidableEq, Repr

/-- `EstadoCompra.name` as used by `estado.name` in `guardar_datos`. -/
def EstadoCompra.name : EstadoCompra → String
  | .PENDIENTE => "PENDIENTE"
  | .COMPRADO => "COMPRADO"

/-- `EstadoCompra[s]` lookup by member name, as used in `cargar_datos`;
raises `KeyError` (here `none`) for an unknown name. -/
def EstadoCompra.ofName : String → Option EstadoCompra
  | "PENDIENTE" => some .PENDIENTE
  | "COMPRADO" => some .COMPRADO
  | _ => none

/-- `CategoriaReceta` enum from project.py. -/
inductive CategoriaReceta where
  | DESAYUNO : CategoriaReceta
  | ALMUERZO : CategoriaReceta
  | CENA : CategoriaReceta
  | POSTRE : CategoriaReceta
deriving DecidableEq, Repr

/-- The `.value` of each `CategoriaReceta` member. -/
def CategoriaReceta.value : CategoriaReceta → String
  | .DESAYUNO => "Desayuno"
  | .ALMUERZO => "Almuerzo"
  | .CENA => "Cena"
  | .POSTRE => "Postre"

/-- `CategoriaReceta(s)` value lookup, as used in `cargar_datos`;
raises `ValueError` (here `none`) for an unknown value. -/
def CategoriaReceta.ofValue : String → Option CategoriaReceta
  | "Desayuno" => some .DESAYUNO
  | "Almuerzo" => some .ALMUERZO
  | "Cena" => some .CENA
  | "Postre" => some .POSTRE
  | _ => none

/-- The `Receta` dataclass; `ingredientes` is a Python set, carried as its
(duplicate-free) list of elements. -/
structure Receta where
  nombre : String
  categoria : CategoriaReceta
  ingredientes : List String
  pasos : List String
  tiempo_preparacion : Int
deriving DecidableEq

/-- The `ItemCompra` dataclass. -/
structure ItemCompra where
  nombre : String
  estado : EstadoCompra := EstadoCompra.PENDIENTE
deriving DecidableEq, Repr

/-- Lookup in a Python-dict-as-association-list: value of the first entry
whose key matches, `none` when absent (`k in d` is `(dlookup d k).isSome`). -/
def dlookup {α : Type} : List (String × α) → String → Option α
  | [], _ => none
  | (k', v) :: t, k => if k' = k then some v else dlookup t k

/-- `d[k] = v` on a Python dict: overwrite in place if the key exists,
otherwise append at the end (dicts preserve insertion order). -/
def dinsert {α : Type} : List (String × α) → String → α → List (String × α)
  | [], k, v => [(k, v)]
  | (k', v') :: t, k, v =>
      if k' = k then (k', v) :: t else (k', v') :: dinsert t k v

/-- `del d[k]` on a Python dict: drop the entry with key `k`. -/
def derase {α : Type} (l : List (String × α)) (k : String) : List (String × α) :=
  l.filter (fun p => p.1 ≠ k)

/-- Key set of a dict. -/
def dkeys {α : Type} (l : List (String × α)) : Finset String :=
  (l.map Prod.fst).toFinset

/-- The mutable state of a `GestorRecetas` instance: the two dicts
`self.recetas` and `self.lista_compras` (the colour table and file name are
presentation-only constants). -/
structure GestorRecetas where
  recetas : List (String × Receta)
  lista_compras : List (String × ItemCompra)
deriving DecidableEq

/-- A fresh `GestorRecetas()`: both dicts empty. -/
def GestorRecetas.vacio : GestorRecetas := ⟨[], []⟩

/-- `reduce(lambda acc, r: acc.union(r.ingredientes), recetas.values(), set())`
— the union of the ingredient sets of all stored recipes, used both in
`ingredientes_faltantes` and `eliminar_receta`. -/
def unionIngredientes (rs : List (String × Receta)) : Finset String :=
  rs.foldl (fun acc p => acc ∪ p.2.ingredientes.toFinset) ∅

/-- `GestorRecetas.ingredientes_faltantes`: union of all recipe ingredients
minus the set of `item.nombre` over the shopping-list values. -/
def ingredientes_faltantes (g : GestorRecetas) : Finset String :=
  unionIngredientes g.recetas \ (g.lista_compras.map (fun p => p.2.nombre)).toFinset

/-- The shopping-list update loop in `agregar_receta`: for each ingredient
(in iteration order `ings`), insert `ItemCompra(ing)` when the key is absent. -/
def actualizarListaCompras (lista : List (String × ItemCompra)) (ings : List String) :
    List (String × ItemCompra) :=
  ings.foldl
    (fun l ing =>
      if (dlookup l ing).isSome then l
      else l ++ [(ing, { nombre := ing, estado := EstadoCompra.PENDIENTE })])
    lista

/-- `GestorRecetas.agregar_receta`: store the recipe under its name, then
ensure every ingredient has a shopping-list entry (new ones Pending). -/
def agregar_receta (g : GestorRecetas) (r : Receta) : GestorRecetas :=
  { recetas := dinsert g.recetas r.nombre r
    lista_compras := actualizarListaCompras g.lista_compras r.ingredientes }

/-- `GestorRecetas.eliminar_receta`: `False` and no change when the name is
absent; otherwise delete the recipe, recompute the ingredient union over the
remaining recipes, and drop every shopping-list entry whose key is outside
that union. Returns (new state, return value). -/
def eliminar_receta (g : GestorRecetas) (nombre : String) : GestorRecetas × Bool :=
  if (dlookup g.recetas nombre).isSome then
    let recetas' := derase g.recetas nombre
    let restantes := unionIngredientes recetas'
    ({ recetas := recetas'
       lista_compras := g.lista_compras.filter (fun p => p.1 ∈ restantes) },
     true)
  else (g, false)

/-- Observable outcome of `GestorRecetas.preparar_receta`: the method mutates
no state, so the embedding records its return value, the number of steps
printed and the `asyncio.sleep` durations performed. -/
structure PrepResultado where
  exito : Bool
  pasos_ejecutados : Nat
  pausas : List Int
deriving DecidableEq, Repr

/-- `GestorRecetas.preparar_receta`: `False` with no output when the name is
unknown; otherwise one printed step and one pause of
`max(1, tiempo_preparacion // len(pasos))` per step (Python `//` is floor
division, `Int.fdiv`). The method only reads `self`, so the state is
returned unchanged. -/
def preparar_receta (g : GestorRecetas) (nombre : String) :
    GestorRecetas × PrepResultado :=
  (g,
   match dlookup g.recetas nombre with
   | none => { exito := false, pasos_ejecutados := 0, pausas := [] }
   | some receta =>
       { exito := true
         pasos_ejecutados := receta.pasos.length
         pausas := receta.pasos.map
           (fun _ => max 1 (Int.fdiv receta.tiempo_preparacion receta.pasos.length)) })

/-- One serialized recipe record, as written by `guardar_datos`. -/
structure RecetaDatos where
  nombre : String
  categoria : String
  ingredientes : List String
  pasos : List String
  tiempo_preparacion : Int
deriving DecidableEq

/-- One serialized shopping-list record. -/
structure ItemDatos where
  nombre : String
  estado : String
deriving DecidableEq

/-- The JSON document written by `guardar_datos` / read by `cargar_datos`:
`{"recetas": {name: {...}}, "lista_compras": [{...}]}`. -/
structure DatosArchivo where
  recetas : List (String × RecetaDatos)
  lista_compras : List ItemDatos
deriving DecidableEq

/-- `GestorRecetas.guardar_datos` (the pure serialization built in
`_guardar`): recipes keyed by name with `list(r.ingredientes)` the set's
enumeration, the shopping list as `{nombre, estado.name}` records. -/
def guardar_datos (g : GestorRecetas) : DatosArchivo :=
  { recetas := g.recetas.map (fun p =>
      (p.1,
       { nombre := p.2.nombre
         categoria := p.2.categoria.value
         ingredientes := p.2.ingredientes
         pasos := p.2.pasos
         tiempo_preparacion := p.2.tiempo_preparacion }))
    lista_compras := g.lista_compras.map (fun p =>
      { nombre := p.2.nombre, estado := p.2.estado.name }) }

/-- The `self.recetas` dict comprehension of `cargar_datos`, building the
dict left to right in `acc`: each record's category string goes through
`CategoriaReceta(...)` (which can fail), the record's `nombre` field is taken
from the dict key, and the ingredients list becomes a set. Fails (exception)
as soon as one record is invalid. -/
def cargarRecetasAux (acc : List (String × Receta)) :
    List (String × RecetaDatos) → Option (List (String × Receta))
  | [] => some acc
  | (nombre, d) :: t => do
      let cat ← CategoriaReceta.ofValue d.categoria
      cargarRecetasAux
        (dinsert acc nombre
          { nombre := nombre
            categoria := cat
            ingredientes := d.ingredientes.dedup
            pasos := d.pasos
            tiempo_preparacion := d.tiempo_preparacion })
        t

/-- The full recipes comprehension of `cargar_datos`, starting empty. -/
def cargarRecetas (l : List (String × RecetaDatos)) : Option (List (String × Receta)) :=
  cargarRecetasAux [] l

/-- The `self.lista_compras` dict comprehension of `cargar_datos`, building
the dict left to right in `acc`: keyed by each record's `nombre`, with
`EstadoCompra[estado]` (which can fail). -/
def cargarListaAux (acc : List (String × ItemCompra)) :
    List ItemDatos → Option (List (String × ItemCompra))
  | [] => some acc
  | d :: t => do
      let est ← EstadoCompra.ofName d.estado
      cargarListaAux (dinsert acc d.nombre { nombre := d.nombre, estado := est }) t

/-- The full shopping-list comprehension of `cargar_datos`, starting empty. -/
def cargarLista (l : List ItemDatos) : Option (List (String × ItemCompra)) :=
  cargarListaAux [] l

/-- What `cargar_datos` finds on disk: no file, a file `json.load` cannot
parse, or a parsed document. -/
inductive ArchivoEstado where
  | ausente : ArchivoEstado
  | corrupto : ArchivoEstado
  | contenido : DatosArchivo → ArchivoEstado

/-- `GestorRecetas.cargar_datos`, acting on the prior state `g`: an absent
file returns early; a JSON parse failure is caught leaving `g` untouched; a
failure inside the recipes comprehension happens before `self.recetas` is
assigned, so `g` is untouched; a failure inside the shopping-list
comprehension happens after `self.recetas` was already assigned, so the
loaded recipes stay and the old shopping list stays. -/
def cargar_datos (g : GestorRecetas) (archivo : ArchivoEstado) : GestorRecetas :=
  match archivo with
  | .ausente => g
  | .corrupto => g
  | .contenido datos =>
      match cargarRecetas datos.recetas with
      | none => g
      | some rs =>
          match cargarLista datos.lista_compras with
          | none => { g with recetas := rs }
          | some ls => { recetas := rs, lista_compras := ls }

/-- `item.estado = EstadoCompra.COMPRADO` in `gestionar_lista_compras`
(option 1), applied to the item stored under key `nombre`. -/
def marcarComprado (g : GestorRecetas) (nombre : String) : GestorRecetas :=
  { g with
    lista_compras := g.lista_compras.map (fun p =>
      if p.1 = nombre then (p.1, { p.2 with estado := EstadoCompra.COMPRADO })
      else p) }

/-- `del gestor.lista_compras[item.nombre]` in `gestionar_lista_compras`
(option 2): the entry is removed with no recomputation of anything. -/
def eliminarItemCompra (g : GestorRecetas) (nombre : String) : GestorRecetas :=
  { g with lista_compras := derase g.lista_compras nombre }

/-- One mutating operation of the manager, as dispatched by the shell. -/
inductive Op where
  | agregar : Receta → Op
  | eliminar : String → Op
  | marcar : String → Op
  | quitarItem : String → Op

/-- Apply one operation to the state. -/
def aplicarOp (g : GestorRecetas) : Op → GestorRecetas
  | .agregar r => agregar_receta g r
  | .eliminar n => (eliminar_receta g n).1
  | .marcar n => marcarComprado g n
  | .quitarItem n => eliminarItemCompra g n

/-- Run a sequence of operations from the empty (fresh-instance) state. -/
def ejecutar (ops : List Op) : GestorRecetas :=
  ops.foldl aplicarOp GestorRecetas.vacio

/-- Concrete example recipe: a soup with one ingredient. -/
def recetaSopa : Receta :=
  { nombre := "Sopa", categoria := CategoriaReceta.ALMUERZO,
    ingredientes := ["apio"], pasos := ["picar", "hervir"],
    tiempo_preparacion := 4 }

/-- A second recipe under the same name (an overwriting add) with a
different ingredient. -/
def recetaSopa2 : Receta :=
  { nombre := "Sopa", categoria := CategoriaReceta.ALMUERZO,
    ingredientes := ["papa"], pasos := ["pelar"], tiempo_preparacion := 3 }

/-- Concrete example recipe: three steps, ten minutes. -/
def recetaFlan : Receta :=
  { nombre := "Flan", categoria := CategoriaReceta.POSTRE,
    ingredientes := ["huevo", "leche"], pasos := ["a", "b", "c"],
    tiempo_preparacion := 10 }

/-- A concrete populated state: two recipes, one item already purchased. -/
def gestorDos : GestorRecetas :=
  ⟨[("Sopa", recetaSopa), ("Flan", recetaFlan)],
   [("apio", ⟨"apio", EstadoCompra.PENDIENTE⟩),
    ("huevo", ⟨"huevo", EstadoCompra.COMPRADO⟩),
    ("leche", ⟨"leche", EstadoCompra.PENDIENTE⟩)]⟩

/-- Add a recipe, then manually delete its ingredient from the list. -/
def opsQuitar : List Op := [Op.agregar recetaSopa, Op.quitarItem "apio"]

/-- Add a recipe, then overwrite it under the same name with different
ingredients. -/
def opsSobre : List Op := [Op.agregar recetaSopa, Op.agregar recetaSopa2]

/-- A mixed sequence without manual item removal. -/
def opsMixto : List Op :=
  [Op.agregar recetaSopa, Op.agregar recetaFlan, Op.marcar "huevo",
   Op.eliminar "Sopa"]

/-- A sequence of recipe adds and removes only. -/
def opsRecetas : List Op :=
  [Op.agregar recetaSopa, Op.agregar recetaFlan, Op.eliminar "Sopa"]

/-- A stored file whose recipes section is valid but whose shopping-list
section carries an invalid `estado` string. -/
def datosMalos : DatosArchivo :=
  { recetas := [("Sopa",
      { nombre := "Sopa", categoria := "Almuerzo", ingredientes := ["apio"],
        pasos := ["picar"], tiempo_preparacion := 4 })]
    lista_compras := [{ nombre := "apio", estado := "COMPRAD" }] }

/-! ### Lemmas about the dictionary model -/

theorem dlookup_append_some {α : Type} {l l' : List (String × α)} {k : String}
    {v : α} (h : dlookup l k = some v) : dlookup (l ++ l') k = some v := by
  induction l with
  | nil => simp [dlookup] at h
  | cons p t ih =>
      obtain ⟨k', v'⟩ := p
      simp only [dlookup, List.cons_append] at h ⊢
      split at h
      · simp [*]
      · simp only [*, if_false]
        exact ih h

theorem dlookup_append_none {α : Type} {l : List (String × α)} {k : String}
    (l' : List (String × α)) (h : dlookup l k = none) :
    dlookup (l ++ l') k = dlookup l' k := by
  induction l with
  | nil => simp
  | cons p t ih =>
      obtain ⟨k', v'⟩ := p
      simp only [dlookup, List.cons_append] at h ⊢
      split at h
      · simp at h
      · simp only [*, if_false]
        exact ih h

theorem dlookup_dinsert_self {α : Type} (l : List (String × α)) (k : String)
    (v : α) : dlookup (dinsert l k v) k = some v := by
  induction l with
  | nil => simp [dlookup, dinsert]
  | cons p t ih =>
      obtain ⟨k', v'⟩ := p
      by_cases hk : k' = k <;> simp [dinsert, dlookup, hk, ih]

theorem dlookup_dinsert_ne {α : Type} (l : List (String × α)) {k k' : String}
    (v : α) (h : k ≠ k') : dlookup (dinsert l k v) k' = dlookup l k' := by
  induction l with
  | nil => simp [dlookup, dinsert, fun hkk => h hkk]
  | cons p t ih =>
      obtain ⟨k₀, v₀⟩ := p
      by_cases hk : k₀ = k
      · subst hk
        simp [dinsert, dlookup, fun hkk => h hkk]
      · simp [dinsert, dlookup, hk, ih]

theorem mem_dinsert {α : Type} {l : List (String × α)} {k : String} {v : α}
    {p : String × α} (h : p ∈ dinsert l k v) :
    p ∈ l ∨ (p.1 = k ∧ p.2 = v) := by
  induction l with
  | nil =>
      simp only [dinsert, List.mem_singleton] at h
      exact Or.inr ⟨by simp [h], by simp [h]⟩
  | cons q t ih =>
      obtain ⟨k₀, v₀⟩ := q
      by_cases hk : k₀ = k
      · subst hk
        simp only [dinsert, if_true, List.mem_cons] at h
        rcases h with h' | h'
        · exact Or.inr ⟨by simp [h'], by simp [h']⟩
        · exact Or.inl (List.mem_cons_of_mem _ h')
      · simp only [dinsert, if_neg hk, List.mem_cons] at h
        rcases h with h' | h'
        · exact Or.inl (by simp [h'])
        · rcases ih h' with h'' | h''
          · exact Or.inl (List.mem_cons_of_mem _ h'')
          · exact Or.inr h''

theorem dinsert_eq_append {α : Type} {l : List (String × α)} {k : String}
    (v : α) (h : dlookup l k = none) : dinsert l k v = l ++ [(k, v)] := by
  induction l with
  | nil => simp [dinsert]
  | cons p t ih =>
      obtain ⟨k', v'⟩ := p
      simp only [dlookup] at h
      split at h
      · simp at h
      · simp only [dinsert, if_neg (by assumption), List.cons_append,
          List.cons.injEq, true_and]
        exact ih h

theorem dlookup_filter {α : Type} (q : String → Bool) (l : List (String × α))
    (k : String) :
    dlookup (l.filter (fun p => q p.1)) k =
      if q k then dlookup l k else none := by
  induction l with
  | nil => simp [dlookup]
  | cons p t ih =>
      obtain ⟨k', v'⟩ := p
      by_cases hq : q k'
      · by_cases hk : k' = k
        · subst hk
          simp [List.filter_cons, hq, dlookup, ih]
        · simp [List.filter_cons, hq, dlookup, hk, ih]
      · by_cases hk : k' = k
        · subst hk
          simp [List.filter_cons, hq, dlookup, ih, Bool.not_eq_true]
        · simp [List.filter_cons, hq, dlookup, hk, ih]

theorem dlookup_derase_self {α : Type} (l : List (String × α)) (k : String) :
    dlookup (derase l k) k = none := by
  have h := dlookup_filter (fun x => decide (x ≠ k)) l k
  simpa [derase] using h

theorem dlookup_derase_ne {α : Type} (l : List (String × α)) {k k' : String}
    (h : k' ≠ k) : dlookup (derase l k) k' = dlookup l k' := by
  have h' := dlookup_filter (fun x => decide (x ≠ k)) l k'
  simpa [derase, h] using h'

theorem mem_derase {α : Type} {l : List (String × α)} {k : String}
    {p : String × α} (h : p ∈ derase l k) : p ∈ l :=
  List.mem_of_mem_filter h

theorem mem_dkeys {α : Type} (l : List (String × α)) (k : String) :
    k ∈ dkeys l ↔ (dlookup l k).isSome := by
  induction l with
  | nil => simp [dkeys, dlookup]
  | cons p t ih =>
      obtain ⟨k', v'⟩ := p
      by_cases hk : k' = k
      · subst hk
        simp [dkeys, dlookup]
      · simp only [dkeys, List.map_cons, List.toFinset_cons, Finset.mem_insert,
          dlookup, if_neg hk] at ih ⊢
        simp [hk, Ne.symm hk, ih]

theorem mem_unionIngredientes_foldl (rs : List (String × Receta))
    (acc : Finset String) (k : String) :
    k ∈ rs.foldl (fun a p => a ∪ p.2.ingredientes.toFinset) acc ↔
      k ∈ acc ∨ ∃ p ∈ rs, k ∈ p.2.ingredientes := by
  induction rs generalizing acc with
  | nil => simp
  | cons q t ih =>
      simp only [List.foldl_cons, ih, Finset.mem_union, List.mem_cons,
        List.mem_toFinset]
      constructor
      · rintro (⟨h | h⟩ | ⟨p, hp, hk⟩)
        · exact Or.inl h
        · exact Or.inr ⟨q, Or.inl rfl, h⟩
        · exact Or.inr ⟨p, Or.inr hp, hk⟩
      · rintro (h | ⟨p, hp | hp, hk⟩)
        · exact Or.inl (Or.inl h)
        · exact Or.inl (Or.inr (hp ▸ hk))
        · exact Or.inr ⟨p, hp, hk⟩

theorem mem_unionIngredientes (rs : List (String × Receta)) (k : String) :
    k ∈ unionIngredientes rs ↔ ∃ p ∈ rs, k ∈ p.2.ingredientes := by
  simpa [unionIngredientes] using mem_unionIngredientes_foldl rs ∅ k

/-! ### Lemmas about the `agregar_receta` shopping-list update loop -/

theorem actualizar_nil (lista : List (String × ItemCompra)) :
    actualizarListaCompras lista [] = lista := rfl

theorem actualizar_cons (lista : List (String × ItemCompra)) (ing : String)
    (t : List String) :
    actualizarListaCompras lista (ing :: t) =
      actualizarListaCompras
        (if (dlookup lista ing).isSome then lista
         else lista ++ [(ing, { nombre := ing, estado := EstadoCompra.PENDIENTE })])
        t := rfl

theorem actualizar_preserva (ings : List String)
    {lista : List (String × ItemCompra)} {k : String} {v : ItemCompra}
    (h : dlookup lista k = some v) :
    dlookup (actualizarListaCompras lista ings) k = some v := by
  induction ings generalizing lista with
  | nil => simpa [actualizar_nil] using h
  | cons ing t ih =>
      rw [actualizar_cons]
      by_cases hs : (dlookup lista ing).isSome
      · rw [if_pos hs]; exact ih h
      · rw [if_neg hs]; exact ih (dlookup_append_some h)

theorem actualizar_isSome (ings : List String)
    {lista : List (String × ItemCompra)} {k : String}
    (h : (dlookup lista k).isSome) :
    (dlookup (actualizarListaCompras lista ings) k).isSome := by
  obtain ⟨v, hv⟩ := Option.isSome_iff_exists.mp h
  rw [actualizar_preserva ings hv]
  rfl

theorem actualizar_mem (ings : List String)
    {lista : List (String × ItemCompra)} {k : String} (h : k ∈ ings) :
    (dlookup (actualizarListaCompras lista ings) k).isSome := by
  induction ings generalizing lista with
  | nil => cases h
  | cons ing t ih =>
      rw [actualizar_cons]
      rcases List.mem_cons.mp h with h' | h'
      · subst h'
        by_cases hs : (dlookup lista k).isSome
        · rw [if_pos hs]; exact actualizar_isSome t hs
        · rw [if_neg hs]
          apply actualizar_isSome t
          have hn : dlookup lista k = none := Option.not_isSome_iff_eq_none.mp hs
          rw [dlookup_append_none _ hn]
          simp [dlookup]
      · by_cases hs : (dlookup lista ing).isSome
        · rw [if_pos hs]; exact ih h'
        · rw [if_neg hs]; exact ih h'

theorem actualizar_nuevo (ings : List String)
    {lista : List (String × ItemCompra)} {k : String}
    (h0 : dlookup lista k = none) (h : k ∈ ings) :
    dlookup (actualizarListaCompras lista ings) k =
      some { nombre := k, estado := EstadoCompra.PENDIENTE } := by
  induction ings generalizing lista with
  | nil => cases h
  | cons ing t ih =>
      rw [actualizar_cons]
      by_cases hik : ing = k
      · subst hik
        rw [if_neg (by simp [h0])]
        apply actualizar_preserva
        rw [dlookup_append_none _ h0]
        simp [dlookup]
      · rcases List.mem_cons.mp h with h' | h'
        · exact absurd h'.symm hik
        · by_cases hs : (dlookup lista ing).isSome
          · rw [if_pos hs]; exact ih h0 h'
          · rw [if_neg hs]
            apply ih _ h'
            rw [dlookup_append_none _ h0]
            simp [dlookup, hik]

theorem actualizar_entries (ings : List String)
    {lista : List (String × ItemCompra)} {p : String × ItemCompra}
    (h : p ∈ actualizarListaCompras lista ings) :
    p ∈ lista ∨
      (p.2 = { nombre := p.1, estado := EstadoCompra.PENDIENTE } ∧ p.1 ∈ ings) := by
  induction ings generalizing lista with
  | nil => exact Or.inl h
  | cons ing t ih =>
      rw [actualizar_cons] at h
      by_cases hs : (dlookup lista ing).isSome
      · rw [if_pos hs] at h
        rcases ih h with h' | ⟨h1, h2⟩
        · exact Or.inl h'
        · exact Or.inr ⟨h1, List.mem_cons_of_mem _ h2⟩
      · rw [if_neg hs] at h
        rcases ih h with h' | ⟨h1, h2⟩
        · rcases List.mem_append.mp h' with h'' | h''
          · exact Or.inl h''
          · simp only [List.mem_singleton] at h''
            subst h''
            exact Or.inr ⟨rfl, List.mem_cons_self _ _⟩
        · exact Or.inr ⟨h1, List.mem_cons_of_mem _ h2⟩

theorem dkeys_actualizar_superset (ings : List String)
    (lista : List (String × ItemCompra)) :
    dkeys lista ∪ ings.toFinset ⊆ dkeys (actualizarListaCompras lista ings) := by
  intro k hk
  rw [mem_dkeys]
  rcases Finset.mem_union.mp hk with h | h
  · exact actualizar_isSome ings ((mem_dkeys lista k).mp h)
  · exact actualizar_mem ings (List.mem_toFinset.mp h)

theorem unionIngredientes_dinsert_subset (rs : List (String × Receta))
    (n : String) (r : Receta) :
    unionIngredientes (dinsert rs n r) ⊆
      unionIngredientes rs ∪ r.ingredientes.toFinset := by
  intro k hk
  rcases (mem_unionIngredientes _ k).mp hk with ⟨p, hp, hkp⟩
  rcases mem_dinsert hp with h | ⟨h1, h2⟩
  · exact Finset.mem_union_left _ ((mem_unionIngredientes rs k).mpr ⟨p, h, hkp⟩)
  · exact Finset.mem_union_right _ (List.mem_toFinset.mpr (h2 ▸ hkp))

theorem unionIngredientes_derase_subset (rs : List (String × Receta))
    (n : String) :
    unionIngredientes (derase rs n) ⊆ unionIngredientes rs := by
  intro k hk
  rcases (mem_unionIngredientes _ k).mp hk with ⟨p, hp, hkp⟩
  exact (mem_unionIngredientes rs k).mpr ⟨p, mem_derase hp, hkp⟩

theorem dlookup_mem {α : Type} {l : List (String × α)} {k : String} {v : α}
    (h : dlookup l k = some v) : (k, v) ∈ l := by
  induction l with
  | nil => simp [dlookup] at h
  | cons p t ih =>
      obtain ⟨k', v'⟩ := p
      simp only [dlookup] at h
      split at h
      · simp only [Option.some.injEq] at h
        subst h
        simp [*]
      · exact List.mem_cons_of_mem _ (ih h)

theorem dlookup_filter_mem {α : Type} (u : Finset String)
    (l : List (String × α)) (k : String) :
    dlookup (l.filter (fun p => p.1 ∈ u)) k =
      if k ∈ u then dlookup l k else none := by
  have h := dlookup_filter (fun x => decide (x ∈ u)) l k
  simpa using h

/-! ### Invariant preservation by the manager's operations -/

theorem agregar_union_en_claves (g : GestorRecetas) (r : Receta)
    (h : unionIngredientes g.recetas ⊆ dkeys g.lista_compras) :
    unionIngredientes (agregar_receta g r).recetas ⊆
      dkeys (agregar_receta g r).lista_compras := by
  intro k hk
  have h1 := unionIngredientes_dinsert_subset g.recetas r.nombre r hk
  apply dkeys_actualizar_superset r.ingredientes g.lista_compras
  rcases Finset.mem_union.mp h1 with h2 | h2
  · exact Finset.mem_union_left _ (h h2)
  · exact Finset.mem_union_right _ h2

theorem eliminar_union_en_claves (g : GestorRecetas) (n : String)
    (h : unionIngredientes g.recetas ⊆ dkeys g.lista_compras) :
    unionIngredientes (eliminar_receta g n).1.recetas ⊆
      dkeys (eliminar_receta g n).1.lista_compras := by
  by_cases hs : (dlookup g.recetas n).isSome
  · simp only [eliminar_receta, if_pos hs]
    intro k hk
    have hk0 : k ∈ unionIngredientes g.recetas :=
      unionIngredientes_derase_subset _ _ hk
    have hkeys := h hk0
    rw [mem_dkeys] at hkeys ⊢
    rw [dlookup_filter_mem, if_pos hk]
    exact hkeys
  · simp only [eliminar_receta, if_neg hs]
    exact h

theorem dkeys_marcar (l : List (String × ItemCompra)) (n : String) :
    dkeys (l.map (fun p =>
      if p.1 = n then (p.1, { p.2 with estado := EstadoCompra.COMPRADO })
      else p)) = dkeys l := by
  induction l with
  | nil => rfl
  | cons p t ih =>
      have hhd : (if p.1 = n then
          (p.1, { p.2 with estado := EstadoCompra.COMPRADO }) else p).1 = p.1 := by
        split <;> rfl
      simp only [dkeys, List.map_cons, List.toFinset_cons, hhd] at ih ⊢
      rw [ih]

theorem marcar_union_en_claves (g : GestorRecetas) (n : String)
    (h : unionIngredientes g.recetas ⊆ dkeys g.lista_compras) :
    unionIngredientes (marcarComprado g n).recetas ⊆
      dkeys (marcarComprado g n).lista_compras := by
  show unionIngredientes g.recetas ⊆
    dkeys (g.lista_compras.map (fun p =>
      if p.1 = n then (p.1, { p.2 with estado := EstadoCompra.COMPRADO }) else p))
  rw [dkeys_marcar]
  exact h

theorem agregar_nombres_coherentes (g : GestorRecetas) (r : Receta)
    (h : ∀ p ∈ g.lista_compras, p.2.nombre = p.1) :
    ∀ p ∈ (agregar_receta g r).lista_compras, p.2.nombre = p.1 := by
  intro p hp
  rcases actualizar_entries _ hp with h' | ⟨h1, _⟩
  · exact h p h'
  · rw [h1]

theorem eliminar_nombres_coherentes (g : GestorRecetas) (n : String)
    (h : ∀ p ∈ g.lista_compras, p.2.nombre = p.1) :
    ∀ p ∈ (eliminar_receta g n).1.lista_compras, p.2.nombre = p.1 := by
  by_cases hs : (dlookup g.recetas n).isSome
  · simp only [eliminar_receta, if_pos hs]
    intro p hp
    exact h p (List.mem_of_mem_filter hp)
  · simp only [eliminar_receta, if_neg hs]
    exact h

/-- True exactly on the manual shopping-item removal operation. -/
def Op.esQuitarItem : Op → Bool
  | .quitarItem _ => true
  | _ => false

/-- True exactly on the two recipe operations (`agregar` / `eliminar`). -/
def Op.esRecetaOp : Op → Bool
  | .agregar _ => true
  | .eliminar _ => true
  | _ => false

theorem foldl_union_en_claves (ops : List Op) (g : GestorRecetas)
    (hg : unionIngredientes g.recetas ⊆ dkeys g.lista_compras)
    (hops : ∀ op ∈ ops, op.esQuitarItem = false) :
    unionIngredientes (ops.foldl aplicarOp g).recetas ⊆
      dkeys (ops.foldl aplicarOp g).lista_compras := by
  induction ops generalizing g with
  | nil => exact hg
  | cons op t ih =>
      rw [List.foldl_cons]
      have hop := hops _ (List.mem_cons_self _ _)
      have hstep : unionIngredientes (aplicarOp g op).recetas ⊆
          dkeys (aplicarOp g op).lista_compras := by
        cases op with
        | agregar r => exact agregar_union_en_claves g r hg
        | eliminar n => exact eliminar_union_en_claves g n hg
        | marcar n => exact marcar_union_en_claves g n hg
        | quitarItem n => simp [Op.esQuitarItem] at hop
      exact ih (aplicarOp g op) hstep
        (fun o ho => hops o (List.mem_cons_of_mem _ ho))

theorem foldl_estado_coherente (ops : List Op) (g : GestorRecetas)
    (hg1 : ∀ p ∈ g.lista_compras, p.2.nombre = p.1)
    (hg2 : unionIngredientes g.recetas ⊆ dkeys g.lista_compras)
    (hops : ∀ op ∈ ops, op.esRecetaOp = true) :
    (∀ p ∈ (ops.foldl aplicarOp g).lista_compras, p.2.nombre = p.1) ∧
      unionIngredientes (ops.foldl aplicarOp g).recetas ⊆
        dkeys (ops.foldl aplicarOp g).lista_compras := by
  induction ops generalizing g with
  | nil => exact ⟨hg1, hg2⟩
  | cons op t ih =>
      rw [List.foldl_cons]
      have hop := hops _ (List.mem_cons_self _ _)
      have hstep : (∀ p ∈ (aplicarOp g op).lista_compras, p.2.nombre = p.1) ∧
          unionIngredientes (aplicarOp g op).recetas ⊆
            dkeys (aplicarOp g op).lista_compras := by
        cases op with
        | agregar r =>
            exact ⟨agregar_nombres_coherentes g r hg1, agregar_union_en_claves g r hg2⟩
        | eliminar n =>
            exact ⟨eliminar_nombres_coherentes g n hg1, eliminar_union_en_claves g n hg2⟩
        | marcar n => simp [Op.esRecetaOp] at hop
        | quitarItem n => simp [Op.esRecetaOp] at hop
      exact ih (aplicarOp g op) hstep.1 hstep.2
        (fun o ho => hops o (List.mem_cons_of_mem _ ho))

/-! ### Persistence round-trip lemmas -/

theorem ofValue_value (c : CategoriaReceta) :
    CategoriaReceta.ofValue c.value = some c := by
  cases c <;> rfl

theorem ofName_name (e : EstadoCompra) :
    EstadoCompra.ofName e.name = some e := by
  cases e <;> rfl

/-- Well-formedness of a manager state, as every state built through the
program's own operations satisfies: every record carries its own dict key as
its `nombre`, dict keys are unique, ingredient sets have no duplicate
elements, and prep times are positive. -/
def EstadoBienFormado (g : GestorRecetas) : Prop :=
  (∀ p ∈ g.recetas, p.2.nombre = p.1) ∧
  (g.recetas.map Prod.fst).Nodup ∧
  (∀ p ∈ g.recetas, p.2.ingredientes.Nodup) ∧
  (∀ p ∈ g.lista_compras, p.2.nombre = p.1) ∧
  (g.lista_compras.map Prod.fst).Nodup ∧
  ∀ p ∈ g.recetas, 0 < p.2.tiempo_preparacion

theorem cargarRecetasAux_inversa (rs : List (String × Receta))
    (acc : List (String × Receta))
    (hnom : ∀ p ∈ rs, p.2.nombre = p.1)
    (hnd : (rs.map Prod.fst).Nodup)
    (hing : ∀ p ∈ rs, p.2.ingredientes.Nodup)
    (hdisj : ∀ p ∈ rs, dlookup acc p.1 = none) :
    cargarRecetasAux acc (rs.map (fun p =>
      (p.1,
       { nombre := p.2.nombre
         categoria := p.2.categoria.value
         ingredientes := p.2.ingredientes
         pasos := p.2.pasos
         tiempo_preparacion := p.2.tiempo_preparacion }))) = some (acc ++ rs) := by
  induction rs generalizing acc with
  | nil => simp [cargarRecetasAux]
  | cons p t ih =>
      obtain ⟨k, r⟩ := p
      have hk : r.nombre = k := hnom (k, r) (List.mem_cons_self _ _)
      simp only [List.map_cons, cargarRecetasAux, ofValue_value,
        Option.bind_eq_bind, Option.some_bind]
      have hrec : ({ nombre := k, categoria := r.categoria,
                     ingredientes := r.ingredientes.dedup,
                     pasos := r.pasos,
                     tiempo_preparacion := r.tiempo_preparacion } : Receta) = r := by
        have hdd : r.ingredientes.dedup = r.ingredientes :=
          List.dedup_eq_self.mpr (hing (k, r) (List.mem_cons_self _ _))
        cases r
        simp_all
      rw [hrec, dinsert_eq_append r (hdisj (k, r) (List.mem_cons_self _ _))]
      rw [List.map_cons] at hnd
      have hnd' := List.nodup_cons.mp hnd
      rw [ih (acc ++ [(k, r)])
        (fun q hq => hnom q (List.mem_cons_of_mem _ hq))
        hnd'.2
        (fun q hq => hing q (List.mem_cons_of_mem _ hq))
        (fun q hq => by
          rw [dlookup_append_none _ (hdisj q (List.mem_cons_of_mem _ hq))]
          have hqk : k ≠ q.1 := by
            intro hkq
            exact hnd'.1 (hkq ▸ List.mem_map.mpr ⟨q, hq, rfl⟩)
          simp [dlookup, hqk])]
      simp

theorem cargarListaAux_inversa (ls : List (String × ItemCompra))
    (acc : List (String × ItemCompra))
    (hnom : ∀ p ∈ ls, p.2.nombre = p.1)
    (hnd : (ls.map Prod.fst).Nodup)
    (hdisj : ∀ p ∈ ls, dlookup acc p.1 = none) :
    cargarListaAux acc (ls.map (fun p =>
      { nombre := p.2.nombre, estado := p.2.estado.name })) = some (acc ++ ls) := by
  induction ls generalizing acc with
  | nil => simp [cargarListaAux]
  | cons p t ih =>
      obtain ⟨k, it⟩ := p
      have hk : it.nombre = k := hnom (k, it) (List.mem_cons_self _ _)
      simp only [List.map_cons, cargarListaAux, ofName_name,
        Option.bind_eq_bind, Option.some_bind]
      have hit : ({ nombre := it.nombre, estado := it.estado } : ItemCompra) = it := by
        cases it
        rfl
      rw [hit, hk, dinsert_eq_append it (hdisj (k, it) (List.mem_cons_self _ _))]
      rw [List.map_cons] at hnd
      have hnd' := List.nodup_cons.mp hnd
      rw [ih (acc ++ [(k, it)])
        (fun q hq => hnom q (List.mem_cons_of_mem _ hq))
        hnd'.2
        (fun q hq => by
          rw [dlookup_append_none _ (hdisj q (List.mem_cons_of_mem _ hq))]
          have hqk : k ≠ q.1 := by
            intro hkq
            exact hnd'.1 (hkq ▸ List.mem_map.mpr ⟨q, hq, rfl⟩)
          simp [dlookup, hqk])]
      simp

theorem cargarRecetas_guardar (g : GestorRecetas)
    (hnom : ∀ p ∈ g.recetas, p.2.nombre = p.1)
    (hnd : (g.recetas.map Prod.fst).Nodup)
    (hing : ∀ p ∈ g.recetas, p.2.ingredientes.Nodup) :
    cargarRecetas (guardar_datos g).recetas = some g.recetas := by
  have h := cargarRecetasAux_inversa g.recetas [] hnom hnd hing
    (fun p _ => rfl)
  simpa [cargarRecetas, guardar_datos] using h

theorem cargarLista_guardar (g : GestorRecetas)
    (hnom : ∀ p ∈ g.lista_compras, p.2.nombre = p.1)
    (hnd : (g.lista_compras.map Prod.fst).Nodup) :
    cargarLista (guardar_datos g).lista_compras = some g.lista_compras := by
  have h := cargarListaAux_inversa g.lista_compras [] hnom hnd
    (fun p _ => rfl)
  simpa [cargarLista, guardar_datos] using h

/-! ### Claim theorems -/

/-- C1: after `agregar_receta r` on an arbitrary state (hence after every
call in any sequence of adds), every ingredient of `r` is a key of the
shopping list; ingredients with no prior entry are inserted as Pending items
carrying their own name; and every entry that already existed keeps exactly
its previous record (name and purchase state). -/
theorem agregar_receta_lista_compras (g : GestorRecetas) (r : Receta) :
    (∀ ing ∈ r.ingredientes,
      (dlookup (agregar_receta g r).lista_compras ing).isSome) ∧
    (∀ ing ∈ r.ingredientes, dlookup g.lista_compras ing = none →
      dlookup (agregar_receta g r).lista_compras ing =
        some { nombre := ing, estado := EstadoCompra.PENDIENTE }) ∧
    (∀ k v, dlookup g.lista_compras k = some v →
      dlookup (agregar_receta g r).lista_compras k = some v) := by
  simp only [agregar_receta]
  refine ⟨?_, ?_, ?_⟩
  · intro ing hing
    exact actualizar_mem _ hing
  · intro ing hing h0
    exact actualizar_nuevo _ h0 hing
  · intro k v hv
    exact actualizar_preserva _ hv

/-- Witness for C1 at a concrete call: adding the soup recipe to the empty
state creates the Pending entry for "apio". -/
theorem agregar_receta_lista_compras_witness :
    dlookup (agregar_receta GestorRecetas.vacio recetaSopa).lista_compras
      "apio" = some { nombre := "apio", estado := EstadoCompra.PENDIENTE } :=
  (agregar_receta_lista_compras GestorRecetas.vacio recetaSopa).2.1
    "apio" (by decide) (by rfl)

/-- C2: `eliminar_receta n` fails returning the unchanged state and `False`
when `n` is not stored; otherwise it succeeds, deletes exactly recipe `n`,
and keeps a shopping-list entry exactly when its key lies in the union of
the ingredients of the remaining recipes. -/
theorem eliminar_receta_correcto (g : GestorRecetas) (n : String) :
    (dlookup g.recetas n = none → eliminar_receta g n = (g, false)) ∧
    ((dlookup g.recetas n).isSome →
      (eliminar_receta g n).2 = true ∧
      dlookup (eliminar_receta g n).1.recetas n = none ∧
      (∀ m, m ≠ n →
        dlookup (eliminar_receta g n).1.recetas m = dlookup g.recetas m) ∧
      (∀ k, dlookup (eliminar_receta g n).1.lista_compras k =
        if k ∈ unionIngredientes (derase g.recetas n) then
          dlookup g.lista_compras k
        else none)) := by
  constructor
  · intro h0
    simp [eliminar_receta, h0]
  · intro hs
    simp only [eliminar_receta, if_pos hs]
    refine ⟨trivial, dlookup_derase_self _ _, ?_, ?_⟩
    · intro m hm
      exact dlookup_derase_ne _ hm
    · intro k
      exact dlookup_filter_mem _ _ _

/-- Witness for C2 at a concrete call: removing "Sopa" from the two-recipe
state succeeds, deletes the recipe, and drops "apio" (now unreferenced). -/
theorem eliminar_receta_correcto_witness :
    dlookup (eliminar_receta gestorDos "Sopa").1.recetas "Sopa" = none ∧
    dlookup (eliminar_receta gestorDos "Sopa").1.lista_compras "apio" =
      none := by
  have h := (eliminar_receta_correcto gestorDos "Sopa").2 (by decide)
  refine ⟨h.2.1, ?_⟩
  rw [h.2.2.2 "apio", if_neg (by decide)]

/-- C3: on a successful `eliminar_receta n`, every shopping-list entry whose
key is still an ingredient of some remaining recipe survives with exactly
its previous record — in particular a Purchased item stays Purchased. -/
theorem eliminar_receta_preserva_referenciados (g : GestorRecetas)
    (n : String) (hs : (dlookup g.recetas n).isSome) (k : String)
    (v : ItemCompra) (hv : dlookup g.lista_compras k = some v)
    (href : ∃ p ∈ derase g.recetas n, k ∈ p.2.ingredientes) :
    dlookup (eliminar_receta g n).1.lista_compras k = some v := by
  have hku : k ∈ unionIngredientes (derase g.recetas n) :=
    (mem_unionIngredientes _ k).mpr href
  simp only [eliminar_receta, if_pos hs]
  rw [dlookup_filter_mem, if_pos hku]
  exact hv

/-- Witness for C3: removing "Sopa" keeps "huevo" (still referenced by
"Flan") with its Purchased state intact. -/
theorem eliminar_receta_preserva_referenciados_witness :
    dlookup (eliminar_receta gestorDos "Sopa").1.lista_compras "huevo" =
      some { nombre := "huevo", estado := EstadoCompra.COMPRADO } :=
  eliminar_receta_preserva_referenciados gestorDos "Sopa" (by decide)
    "huevo" { nombre := "huevo", estado := EstadoCompra.COMPRADO }
    (by decide) ⟨("Flan", recetaFlan), by decide, by decide⟩

/-- C4 (counterexample): the claimed equality between the shopping-list key
set and the ingredient union fails on reachable states — after adding the
soup and manually deleting its item the keys are empty but the union is not,
and after an overwriting add the stale key "apio" remains outside the new
union. -/
theorem union_claves_contraejemplo :
    dkeys (ejecutar opsQuitar).lista_compras ≠
      unionIngredientes (ejecutar opsQuitar).recetas ∧
    dkeys (ejecutar opsSobre).lista_compras ≠
      unionIngredientes (ejecutar opsSobre).recetas := by
  decide

/-- C4 (amended): in every state reachable from the empty state by recipe
adds, recipe removals and mark-purchased operations (manual shopping-item
removal excluded), the shopping-list key set contains the union of the
ingredients of all stored recipes; equality can fail (overwriting adds
leave stale keys), and manual removal can break even containment. -/
theorem union_en_claves_alcanzable (ops : List Op)
    (h : ∀ op ∈ ops, op.esQuitarItem = false) :
    unionIngredientes (ejecutar ops).recetas ⊆
      dkeys (ejecutar ops).lista_compras := by
  have hbase : unionIngredientes GestorRecetas.vacio.recetas ⊆
      dkeys GestorRecetas.vacio.lista_compras := by
    intro k hk
    simp [GestorRecetas.vacio, unionIngredientes] at hk
  exact foldl_union_en_claves ops GestorRecetas.vacio hbase h

/-- Witness for the amended C4 on a concrete mixed sequence. -/
theorem union_en_claves_alcanzable_witness :
    unionIngredientes (ejecutar opsMixto).recetas ⊆
      dkeys (ejecutar opsMixto).lista_compras :=
  union_en_claves_alcanzable opsMixto (by decide)

/-- C5: `ingredientes_faltantes` is the set difference between the union of
all recipe ingredients and the set of names of shopping-list entries, and it
is empty in every state reached from the empty state by a sequence of
`agregar_receta` / `eliminar_receta` calls. -/
theorem ingredientes_faltantes_correcto (ops : List Op)
    (h : ∀ op ∈ ops, op.esRecetaOp = true) :
    (∀ k, k ∈ ingredientes_faltantes (ejecutar ops) ↔
      (k ∈ unionIngredientes (ejecutar ops).recetas ∧
        k ∉ ((ejecutar ops).lista_compras.map
          (fun p => p.2.nombre)).toFinset)) ∧
    ingredientes_faltantes (ejecutar ops) = ∅ := by
  have hinv := foldl_estado_coherente ops GestorRecetas.vacio
    (by
      intro p hp
      simp [GestorRecetas.vacio] at hp)
    (by
      intro k hk
      simp [GestorRecetas.vacio, unionIngredientes] at hk)
    h
  constructor
  · intro k
    simp [ingredientes_faltantes, Finset.mem_sdiff]
  · rw [Finset.eq_empty_iff_forall_not_mem]
    intro k hk
    simp only [ingredientes_faltantes] at hk
    rcases Finset.mem_sdiff.mp hk with ⟨hku, hkn⟩
    apply hkn
    have hkk := hinv.2 hku
    rw [mem_dkeys] at hkk
    obtain ⟨v, hv⟩ := Option.isSome_iff_exists.mp hkk
    have hmem := dlookup_mem hv
    have hnv := hinv.1 _ hmem
    rw [List.mem_toFinset]
    exact List.mem_map.mpr ⟨(k, v), hmem, hnv⟩

/-- Witness for C5 on a concrete add/add/remove sequence. -/
theorem ingredientes_faltantes_correcto_witness :
    ingredientes_faltantes (ejecutar opsRecetas) = ∅ :=
  (ingredientes_faltantes_correcto opsRecetas (by decide)).2

/-- C6: serializing a well-formed state with `guardar_datos` and
deserializing with `cargar_datos` reconstructs exactly the original state
(ingredient sets are carried as their element enumeration, so no ordering
is lost), whatever state was in memory before the load. -/
theorem guardar_cargar_identidad (g prev : GestorRecetas)
    (h : EstadoBienFormado g) :
    cargar_datos prev (ArchivoEstado.contenido (guardar_datos g)) = g := by
  obtain ⟨h1, h2, h3, h4, h5, h6⟩ := h
  simp only [cargar_datos, cargarRecetas_guardar g h1 h2 h3,
    cargarLista_guardar g h4 h5]

/-- Witness for C6 at a concrete populated state. -/
theorem guardar_cargar_identidad_witness :
    cargar_datos GestorRecetas.vacio
      (ArchivoEstado.contenido (guardar_datos gestorDos)) = gestorDos :=
  guardar_cargar_identidad gestorDos GestorRecetas.vacio
    (by unfold EstadoBienFormado; decide)

/-- C7 (counterexample): a file whose recipes section is valid but whose
shopping-list section fails validation does not leave the Store empty —
the already-assigned recipes dict keeps the loaded recipes. -/
theorem cargar_datos_contraejemplo :
    cargarLista datosMalos.lista_compras = none ∧
    (cargar_datos GestorRecetas.vacio
      (ArchivoEstado.contenido datosMalos)).recetas ≠ [] := by
  decide

/-- C7 (amended): an absent file, an unparseable file, or a validation error
in the recipes section leaves the startup (empty) state untouched; a
validation error in the shopping-list section after the recipes loaded does
not crash and leaves the List empty, but the Store holds the loaded
recipes. -/
theorem cargar_datos_degradacion (d : DatosArchivo) :
    cargar_datos GestorRecetas.vacio ArchivoEstado.ausente =
      GestorRecetas.vacio ∧
    cargar_datos GestorRecetas.vacio ArchivoEstado.corrupto =
      GestorRecetas.vacio ∧
    (cargarRecetas d.recetas = none →
      cargar_datos GestorRecetas.vacio (ArchivoEstado.contenido d) =
        GestorRecetas.vacio) ∧
    (∀ rs, cargarRecetas d.recetas = some rs →
      cargarLista d.lista_compras = none →
      cargar_datos GestorRecetas.vacio (ArchivoEstado.contenido d) =
        { recetas := rs, lista_compras := [] }) := by
  refine ⟨rfl, rfl, ?_, ?_⟩
  · intro h
    simp [cargar_datos, h]
  · intro rs h1 h2
    simp [cargar_datos, h1, h2, GestorRecetas.vacio]

/-- Witness for the amended C7 at the concrete bad file. -/
theorem cargar_datos_degradacion_witness :
    cargar_datos GestorRecetas.vacio (ArchivoEstado.contenido datosMalos) =
      { recetas := [("Sopa",
          { nombre := "Sopa", categoria := CategoriaReceta.ALMUERZO,
            ingredientes := ["apio"], pasos := ["picar"],
            tiempo_preparacion := 4 })]
        lista_compras := [] } :=
  (cargar_datos_degradacion datosMalos).2.2.2 _ (by decide) (by decide)

/-- C8: preparing a stored recipe with `S ≥ 1` steps and prep time `T`
performs exactly `S` pauses, each of `max 1 (T fdiv S)` time units (Python
floor division). -/
theorem preparar_receta_pausas (g : GestorRecetas) (n : String) (r : Receta)
    (hr : dlookup g.recetas n = some r) (hS : 1 ≤ r.pasos.length) :
    (preparar_receta g n).2.exito = true ∧
    (preparar_receta g n).2.pausas.length = r.pasos.length ∧
    ∀ t ∈ (preparar_receta g n).2.pausas,
      t = max 1 (Int.fdiv r.tiempo_preparacion r.pasos.length) := by
  simp only [preparar_receta, hr]
  refine ⟨trivial, by simp, ?_⟩
  intro t ht
  rcases List.mem_map.mp ht with ⟨s, _, hs⟩
  exact hs.symm

/-- Witness for C8: "Flan" has steps ["a","b","c"] and prep time 10, and
preparing it performs exactly 3 pauses of `max 1 (10 fdiv 3) = 3` each. -/
theorem preparar_receta_pausas_witness :
    (preparar_receta gestorDos "Flan").2.pausas.length = 3 ∧
    (preparar_receta gestorDos "Flan").2.pausas = [3, 3, 3] := by
  have h := preparar_receta_pausas gestorDos "Flan" recetaFlan
    (by decide) (by decide)
  exact ⟨h.2.1.trans (by decide), by decide⟩

/-- C9: preparing an unknown recipe name returns the not-found failure,
prints no step, performs no pause, and leaves the whole state unchanged. -/
theorem preparar_receta_no_encontrada (g : GestorRecetas) (n : String)
    (h : dlookup g.recetas n = none) :
    preparar_receta g n =
      (g, { exito := false, pasos_ejecutados := 0, pausas := [] }) := by
  simp [preparar_receta, h]

/-- Witness for C9 at a concrete unknown name. -/
theorem preparar_receta_no_encontrada_witness :
    preparar_receta gestorDos "Pizza" =
      (gestorDos, { exito := false, pasos_ejecutados := 0, pausas := [] }) :=
  preparar_receta_no_encontrada gestorDos "Pizza" (by decide)

/-- C10: removing an absent recipe name returns `False` and leaves both the
recipe store and the shopping list exactly as they were. -/
theorem eliminar_receta_no_encontrada (g : GestorRecetas) (n : String)
    (h : dlookup g.recetas n = none) :
    eliminar_receta g n = (g, false) := by
  simp [eliminar_receta, h]

/-- Witness for C10 at a concrete unknown name. -/
theorem eliminar_receta_no_encontrada_witness :
    eliminar_receta gestorDos "Pizza" = (gestorDos, false) :=
  eliminar_receta_no_encontrada gestorDos "Pizza" (by decide)

end Proyecto
